import Mathlib

/-!
Verification of the xdv rule-compilation and transform-execution pipeline
(`lib/xdv/compiler.py` and `lib/xdv/run.py`) against its specification.

The Python sources are shallowly embedded as executable Lean definitions.
Strings are modelled as `String` / `List Char`; fallible code returns
`Except String`.  The program runs on a POSIX host, so `os.path.sep = '/'`
and `os.path.normpath` is `posixpath.normpath`; both are embedded below.
External collaborators that are not part of the repository (the XSLT
engine, `cssrules.convert_css_selectors`, the `update-namespace.xsl`
stylesheet, `utils.namespaces`) are modelled from the specification and
marked as such.
-/

/-- Python `pat in s` (substring containment) on character lists. -/
def hasSub (s pat : List Char) : Bool :=
  pat.isPrefixOf s ||
    (match s with
     | [] => false
     | _ :: t => hasSub t pat)

/-- Python `s.startswith(pat)` on character lists. -/
def startsWithL (s pat : List Char) : Bool :=
  pat.isPrefixOf s

/-- Python `pat in s` on strings. -/
def hasSubS (s pat : String) : Bool :=
  hasSub s.toList pat.toList

/-- Python `s.startswith(pat)` on strings. -/
def startsWithS (s pat : String) : Bool :=
  startsWithL s.toList pat.toList

/-- Python `path.split('/')`. -/
def splitSlash : List Char → List (List Char)
  | [] => [[]]
  | c :: rest =>
    match splitSlash rest with
    | [] => [[]]
    | seg :: segs => if c = '/' then [] :: seg :: segs else (c :: seg) :: segs

/-- Python `'/'.join(comps)` on character-list components. -/
def intercalSlash : List (List Char) → List Char
  | [] => []
  | [s] => s
  | s :: rest => s ++ '/' :: intercalSlash rest

/-- Number of initial slashes that `posixpath.normpath` preserves:
2 for a path starting with exactly two slashes, 1 for any other rooted
path, 0 otherwise. -/
def initialSlashes (p : List Char) : Nat :=
  if startsWithL p ['/'] then
    (if startsWithL p ['/', '/'] && !(startsWithL p ['/', '/', '/']) then 2 else 1)
  else 0

/-- One step of the component loop of `posixpath.normpath`: skip empty
and `.` components, append ordinary components, and for `..` either
append (when unrooted at the start, or on top of another `..`) or pop. -/
def normStep (rooted : Bool) (acc : List (List Char)) (comp : List Char) : List (List Char) :=
  if comp = [] ∨ comp = ['.'] then acc
  else if comp ≠ ['.', '.'] ∨ (rooted = false ∧ acc = []) ∨
          (acc ≠ [] ∧ acc.getLast? = some ['.', '.']) then acc ++ [comp]
  else if acc ≠ [] then acc.dropLast
  else acc

/-- `posixpath.normpath` on character lists (the `os.path.normpath` used
by `to_absolute` on a POSIX host). -/
def normpathL (p : List Char) : List Char :=
  if p = [] then ['.']
  else
    let slashes := initialSlashes p
    let nc := (splitSlash p).foldl (normStep (slashes != 0)) []
    let res := List.replicate slashes '/' ++ intercalSlash nc
    if res = [] then ['.'] else res

/-- `os.path.normpath` on strings. -/
def normpath (s : String) : String :=
  String.mk (normpathL s.toList)

/-- Embedding of `to_absolute(path, prefix)` from `compiler.py`.
On a POSIX host `os.path.sep = '/'`, so the trailing separator
replacement in the source is the identity and is omitted. -/
def to_absolute (path pfx : String) : String :=
  if startsWithS path ("/") || hasSubS path ("://") then path
  else
    let absolute := pfx ++ "/" ++ path
    if hasSubS absolute ("://") then absolute
    else normpath absolute

/-- Modelled from the spec: collapse `.` and `..` segments of a
slash-separated component list ("normalize the path (collapse `.`/`..`
segments)"), written as a direct recursion with an accumulator. -/
def specCollapse (rooted : Bool) (acc : List (List Char)) : List (List Char) → List (List Char)
  | [] => acc
  | c :: cs =>
    if c = [] ∨ c = ['.'] then specCollapse rooted acc cs
    else if c = ['.', '.'] then
      (if acc = [] then
        (if rooted then specCollapse rooted acc cs
         else specCollapse rooted (acc ++ [c]) cs)
       else if acc.getLast? = some ['.', '.'] then specCollapse rooted (acc ++ [c]) cs
       else specCollapse rooted acc.dropLast cs)
    else specCollapse rooted (acc ++ [c]) cs

/-- Modelled from the spec: "join prefix and reference with a single
`/` separator ... then normalize the path (collapse `.`/`..` segments),
preserving forward-slash separators". -/
def specNormalizedJoin (pfx r : String) : String :=
  let j := (pfx ++ "/" ++ r).toList
  let slashes := initialSlashes j
  let nc := specCollapse (slashes != 0) [] (splitSlash j)
  let res := List.replicate slashes '/' ++ intercalSlash nc
  String.mk (if res = [] then ['.'] else res)

theorem specCollapse_step (rooted : Bool) (acc : List (List Char)) (c : List Char)
    (cs : List (List Char)) :
    specCollapse rooted acc (c :: cs) = specCollapse rooted (normStep rooted acc c) cs := by
  by_cases h1 : c = [] ∨ c = ['.']
  · simp [specCollapse, normStep, h1]
  · by_cases h2 : c = ['.', '.']
    · subst h2
      by_cases h3 : acc = []
      · subst h3
        cases rooted with
        | false => simp [specCollapse, normStep]
        | true => simp [specCollapse, normStep]
      · by_cases h4 : acc.getLast? = some ['.', '.']
        · simp [specCollapse, normStep, h3, h4]
        · simp [specCollapse, normStep, h3, h4]
    · simp [specCollapse, normStep, h1, h2]

theorem foldl_normStep_eq_specCollapse (rooted : Bool) :
    ∀ (l : List (List Char)) (acc : List (List Char)),
      l.foldl (normStep rooted) acc = specCollapse rooted acc l := by
  intro l
  induction l with
  | nil => intro acc; simp [specCollapse]
  | cons c cs ih =>
    intro acc
    rw [List.foldl_cons, specCollapse_step, ih]

theorem normpath_eq_specJoin (pfx r : String) :
    normpath (pfx ++ "/" ++ r) = specNormalizedJoin pfx r := by
  have hne : (pfx ++ "/" ++ r).toList ≠ [] := by
    have : (pfx ++ "/" ++ r).toList = pfx.toList ++ '/' :: r.toList := by
      simp [String.toList, String.data_append]
    simp [this]
  simp only [normpath, specNormalizedJoin, normpathL, if_neg hne,
    foldl_normStep_eq_specCollapse]

/-- C1: for every relative reference (not rooted, not a full network
locator) `to_absolute` returns the join of prefix and reference with a
single `/`, normalized by collapsing `.`/`..` segments with
forward-slash separators; if the joined string itself contains a full
network-locator marker it is returned without any normalization. -/
theorem to_absolute_relative_join (r p : String)
    (h1 : startsWithS r ("/") = false) (h2 : hasSubS r ("://") = false) :
    to_absolute r p =
      if hasSubS (p ++ "/" ++ r) ("://") then p ++ "/" ++ r
      else specNormalizedJoin p r := by
  have hcond : (startsWithS r ("/") || hasSubS r ("://")) = false := by
    rw [h1, h2]; rfl
  by_cases hj : hasSubS (p ++ "/" ++ r) ("://") = true
  · simp [to_absolute, hcond, hj]
  · have hj2 : hasSubS (p ++ "/" ++ r) ("://") = false := by
      cases hv : hasSubS (p ++ "/" ++ r) ("://") with
      | false => rfl
      | true => exact absurd hv hj
    simp [to_absolute, hcond, hj2, normpath_eq_specJoin]

theorem to_absolute_relative_join_witness :
    startsWithS ("images/foo.jpg") ("/") = false ∧
    hasSubS ("images/foo.jpg") ("://") = false ∧
    to_absolute ("images/foo.jpg") ("/static") =
      (if hasSubS ("/static" ++ "/" ++ "images/foo.jpg") ("://") then "/static" ++ "/" ++ "images/foo.jpg"
       else specNormalizedJoin ("/static") ("images/foo.jpg")) :=
  ⟨by decide, by decide,
    to_absolute_relative_join ("images/foo.jpg") ("/static") (by decide) (by decide)⟩

/-- C2: references that are already absolute (start with `/`) or are
full network locators (contain `://`) are returned unchanged by
`to_absolute`, for every prefix; hence rewriting them is the identity
and idempotent. -/
theorem to_absolute_already_absolute_id (r p : String)
    (h : startsWithS r ("/") = true ∨ hasSubS r ("://") = true) :
    to_absolute r p = r ∧ to_absolute (to_absolute r p) p = r := by
  have hcond : (startsWithS r ("/") || hasSubS r ("://")) = true := by
    cases h with
    | inl hx => rw [hx]; simp
    | inr hx => rw [hx]; simp
  have hid : to_absolute r p = r := by simp [to_absolute, hcond]
  exact ⟨hid, by rw [hid, hid]⟩

theorem to_absolute_already_absolute_id_witness :
    (startsWithS ("/a/b.css") ("/") = true ∨ hasSubS ("/a/b.css") ("://") = true) ∧
    (to_absolute ("/a/b.css") ("theme") = "/a/b.css" ∧
     to_absolute (to_absolute ("/a/b.css") ("theme")) ("theme") = "/a/b.css") :=
  ⟨Or.inl (by decide),
    to_absolute_already_absolute_id ("/a/b.css") ("theme") (Or.inl (by decide))⟩

/-- Single-quote character (codepoint 39). -/
def squote : Char := Char.ofNat 39

/-- Double-quote character (codepoint 34). -/
def dquote : Char := Char.ofNat 34

/-- The character class `['"]` of the IMPORT_STYLESHEET pattern. -/
def isQuote (c : Char) : Bool := c == squote || c == dquote

/-- Python regex `\s` (modelled on the ASCII whitespace characters). -/
def pySpace (c : Char) : Bool :=
  c == ' ' || c == '\t' || c == '\n' || c == '\r' || c == Char.ofNat 11 || c == Char.ofNat 12

/-- The literal `@import`, lowercase (the pattern is case-insensitive). -/
def atImportPat : List Char := ['@', 'i', 'm', 'p', 'o', 'r', 't']

/-- The literal `url(`, lowercase (the pattern is case-insensitive). -/
def urlOpenPat : List Char := ['u', 'r', 'l', '(']

/-- Case-insensitive literal match: on success returns the consumed
input characters (original case) and the remaining input. -/
def matchCI : List Char → List Char → Option (List Char × List Char)
  | [], cs => some ([], cs)
  | _ :: _, [] => none
  | p :: ps, c :: cs =>
    if c.toLower == p then
      match matchCI ps cs with
      | some (m, rest) => some (c :: m, rest)
      | none => none
    else none

/-- Group 3 of IMPORT_STYLESHEET, `(['"]?\)|['"])`, with the regex
engine's preference order: quote-then-paren, bare paren, bare quote. -/
def g3match : List Char → Option (List Char × List Char)
  | [] => none
  | c1 :: rest =>
    match rest with
    | c2 :: rest2 =>
      if isQuote c1 && (c2 == ')') then some ([c1, c2], rest2)
      else if c1 == ')' then some ([c1], rest)
      else if isQuote c1 then some ([c1], rest)
      else none
    | [] =>
      if c1 == ')' || isQuote c1 then some ([c1], [])
      else none

/-- Greedy `(.+)` followed by group 3: consumes as many non-newline
characters as possible (backtracking from the longest), then requires a
group-3 match; returns (group 2, group 3, remaining input). -/
def dotPlus : List Char → Option (List Char × List Char × List Char)
  | [] => none
  | c :: rest =>
    if c == '\n' then none
    else
      match dotPlus rest with
      | some (g2, g3, r) => some (c :: g2, g3, r)
      | none =>
        match g3match rest with
        | some (g3, r) => some ([c], g3, r)
        | none => none

/-- Combine a matched group-1 opener with the greedy `(.+)(...)` tail. -/
def afterOpener (g1 tail : List Char) : Option (List Char × List Char × List Char × List Char) :=
  match dotPlus tail with
  | some (g2, g3, r4) => some (g1, g2, g3, r4)
  | none => none

/-- Attempt to match IMPORT_STYLESHEET at the start of the input, with
the engine's backtracking order (`url\(` with optional quote before the
bare-quote alternative).  On success returns group 1 (the full
`@import ... url(`/quote opener), group 2 (the reference), group 3 (the
closer) and the rest of the input. -/
def matchImportAt (cs : List Char) : Option (List Char × List Char × List Char × List Char) :=
  match matchCI atImportPat cs with
  | none => none
  | some (m7, rest) =>
    if (rest.takeWhile pySpace).isEmpty then none
    else
      match matchCI urlOpenPat (rest.dropWhile pySpace) with
      | some (mu, ru) =>
        (match ru with
         | q :: ru2 =>
           if isQuote q then
             (match afterOpener (m7 ++ rest.takeWhile pySpace ++ mu ++ [q]) ru2 with
              | some res => some res
              | none => afterOpener (m7 ++ rest.takeWhile pySpace ++ mu) (q :: ru2))
           else afterOpener (m7 ++ rest.takeWhile pySpace ++ mu) (q :: ru2)
         | [] => none)
      | none =>
        match rest.dropWhile pySpace with
        | q :: rq =>
          if isQuote q then afterOpener (m7 ++ rest.takeWhile pySpace ++ [q]) rq
          else none
        | [] => none

theorem matchCI_decomp (ps : List Char) :
    ∀ cs m rest, matchCI ps cs = some (m, rest) → cs = m ++ rest ∧ m.length = ps.length := by
  induction ps with
  | nil =>
    intro cs m rest h
    simp [matchCI] at h
    rcases h with ⟨rfl, rfl⟩
    simp
  | cons p ps ih =>
    intro cs m rest h
    cases cs with
    | nil => simp [matchCI] at h
    | cons c cs2 =>
      simp only [matchCI] at h
      split at h
      · cases hm : matchCI ps cs2 with
        | none => rw [hm] at h; simp at h
        | some pr =>
          obtain ⟨m2, r2⟩ := pr
          rw [hm] at h
          simp at h
          rcases h with ⟨rfl, rfl⟩
          obtain ⟨hd, hl⟩ := ih cs2 m2 r2 hm
          constructor
          · simp [hd]
          · simp [hl]
      · simp at h

theorem g3match_decomp :
    ∀ cs g3 r, g3match cs = some (g3, r) → cs = g3 ++ r ∧ g3 ≠ [] := by
  intro cs g3 r h
  cases cs with
  | nil => simp [g3match] at h
  | cons c1 rest =>
    cases rest with
    | nil =>
      simp only [g3match] at h
      split at h
      · simp at h; rcases h with ⟨rfl, rfl⟩; simp
      · simp at h
    | cons c2 rest2 =>
      simp only [g3match] at h
      split at h
      · simp at h; rcases h with ⟨rfl, rfl⟩; simp
      · split at h
        · simp at h; rcases h with ⟨rfl, rfl⟩; simp
        · split at h
          · simp at h; rcases h with ⟨rfl, rfl⟩; simp
          · simp at h

theorem dotPlus_decomp :
    ∀ cs g2 g3 r, dotPlus cs = some (g2, g3, r) → cs = g2 ++ g3 ++ r ∧ g2 ≠ [] := by
  intro cs
  induction cs with
  | nil => intro g2 g3 r h; simp [dotPlus] at h
  | cons c rest ih =>
    intro g2 g3 r h
    simp only [dotPlus] at h
    split at h
    · simp at h
    · cases hd : dotPlus rest with
      | some pr =>
        obtain ⟨g2b, g3b, rb⟩ := pr
        rw [hd] at h
        simp at h
        rcases h with ⟨rfl, rfl, rfl⟩
        obtain ⟨hdec, hne⟩ := ih g2b g3b rb hd
        constructor
        · simp [hdec]
        · simp
      | none =>
        rw [hd] at h
        cases hg : g3match rest with
        | some pr2 =>
          obtain ⟨g3b, rb⟩ := pr2
          rw [hg] at h
          simp at h
          rcases h with ⟨rfl, rfl, rfl⟩
          obtain ⟨hdec, hne⟩ := g3match_decomp rest g3b rb hg
          constructor
          · simp [hdec]
          · simp
        | none => rw [hg] at h; simp at h

theorem afterOpener_decomp (g1 tail g1b g2 g3 r : List Char)
    (h : afterOpener g1 tail = some (g1b, g2, g3, r)) :
    g1b = g1 ∧ tail = g2 ++ g3 ++ r := by
  unfold afterOpener at h
  cases hd : dotPlus tail with
  | none => rw [hd] at h; simp at h
  | some pr =>
    obtain ⟨g2b, g3b, rb⟩ := pr
    rw [hd] at h
    simp at h
    rcases h with ⟨rfl, rfl, rfl, rfl⟩
    exact ⟨rfl, (dotPlus_decomp tail g2b g3b rb hd).1⟩

theorem cs_eq_take_drop (m7 rest : List Char) (hcs : cs = m7 ++ rest) :
    cs = m7 ++ (List.takeWhile pySpace rest ++ List.dropWhile pySpace rest) := by
  rw [List.takeWhile_append_dropWhile pySpace rest]
  exact hcs

theorem matchImportAt_decomp (cs g1 g2 g3 r : List Char)
    (h : matchImportAt cs = some (g1, g2, g3, r)) :
    cs = g1 ++ g2 ++ g3 ++ r ∧ g1 ≠ [] := by
  unfold matchImportAt at h
  cases h7 : matchCI atImportPat cs with
  | none => rw [h7] at h; simp at h
  | some pr =>
    obtain ⟨m7, rest⟩ := pr
    rw [h7] at h
    obtain ⟨hcs, hlen⟩ := matchCI_decomp atImportPat cs m7 rest h7
    have hm7 : m7 ≠ [] := by
      intro hx
      rw [hx] at hlen
      simp [atImportPat] at hlen
    have hx := cs_eq_take_drop m7 rest hcs
    simp only at h
    split at h
    · simp at h
    · cases hu : matchCI urlOpenPat (rest.dropWhile pySpace) with
      | some pru =>
        obtain ⟨mu, ru⟩ := pru
        rw [hu] at h
        obtain ⟨hr2, _⟩ := matchCI_decomp urlOpenPat (rest.dropWhile pySpace) mu ru hu
        simp only at h
        split at h
        · next q ru2 =>
          split at h
          · cases ha : afterOpener (m7 ++ rest.takeWhile pySpace ++ mu ++ [q]) ru2 with
            | some res =>
              rw [ha] at h
              simp at h
              subst h
              obtain ⟨hg1, htail⟩ :=
                afterOpener_decomp (m7 ++ rest.takeWhile pySpace ++ mu ++ [q]) ru2 g1 g2 g3 r ha
              subst hg1
              refine ⟨?_, by simp [hm7]⟩
              rw [hx, hr2, htail]
              simp
            | none =>
              rw [ha] at h
              obtain ⟨hg1, htail⟩ :=
                afterOpener_decomp (m7 ++ rest.takeWhile pySpace ++ mu) (q :: ru2) g1 g2 g3 r h
              subst hg1
              refine ⟨?_, by simp [hm7]⟩
              rw [hx, hr2, htail]
              simp
          · obtain ⟨hg1, htail⟩ :=
              afterOpener_decomp (m7 ++ rest.takeWhile pySpace ++ mu) (q :: ru2) g1 g2 g3 r h
            subst hg1
            refine ⟨?_, by simp [hm7]⟩
            rw [hx, hr2, htail]
            simp
        · simp at h
      | none =>
        rw [hu] at h
        simp only at h
        split at h
        · next q rq heq =>
          split at h
          · obtain ⟨hg1, htail⟩ :=
              afterOpener_decomp (m7 ++ rest.takeWhile pySpace ++ [q]) rq g1 g2 g3 r h
            subst hg1
            refine ⟨?_, by simp [hm7]⟩
            rw [hx, heq, htail]
            simp
          · simp at h
        · simp at h

theorem matchImportAt_lt (cs g1 g2 g3 r : List Char)
    (h : matchImportAt cs = some (g1, g2, g3, r)) :
    r.length < cs.length := by
  obtain ⟨hdec, hg1⟩ := matchImportAt_decomp cs g1 g2 g3 r h
  have hpos : 0 < g1.length := List.length_pos.mpr hg1
  rw [hdec]
  simp [List.length_append]
  omega


/-- One segment of the text, as carved up by the repeated-match scan of
`re.sub`: either a plain character run (left untouched) or a match,
recorded as its three groups. -/
inductive ImportPart where
  | plain : List Char → ImportPart
  | hit : List Char → List Char → List Char → ImportPart

/-- Fuel-indexed scan of `IMPORT_STYLESHEET.sub`: find each leftmost
non-overlapping match, emit it as a `hit`, and continue after its end;
characters before a match are emitted as `plain` runs.  The fuel only
bounds recursion depth; `importParts` supplies an adequate amount. -/
def importPartsF : Nat → List Char → List ImportPart
  | _, [] => []
  | 0, _ :: _ => []
  | n + 1, c :: rest =>
    match matchImportAt (c :: rest) with
    | some (g1, g2, g3, after) => ImportPart.hit g1 g2 g3 :: importPartsF n after
    | none => ImportPart.plain [c] :: importPartsF n rest

/-- The segments of a text under the `re.sub` scan. -/
def importParts (cs : List Char) : List ImportPart :=
  importPartsF cs.length cs

/-- Reassemble segments, replacing each match's group 2 by `f` applied
to it (the replacement of the source is `group(1) + f(group(2)) +
group(3)`). -/
def renderParts (f : List Char → List Char) : List ImportPart → List Char
  | [] => []
  | ImportPart.plain s :: ps => s ++ renderParts f ps
  | ImportPart.hit g1 g2 g3 :: ps => g1 ++ f g2 ++ g3 ++ renderParts f ps

/-- Python `IMPORT_STYLESHEET.sub(lambda m: m.group(1) + f(m.group(2)) +
m.group(3), text)` on character lists. -/
def subImport (f : List Char → List Char) (cs : List Char) : List Char :=
  renderParts f (importParts cs)

/-- The `re.sub` call of `apply_absolute_prefix`: rewrite each
`@import` reference through `to_absolute`. -/
def subImportStr (pfx : String) (t : String) : String :=
  String.mk (subImport (fun g2 => (to_absolute (String.mk g2) pfx).toList) t.toList)

theorem renderParts_id_importPartsF :
    ∀ (n : Nat) (cs : List Char), cs.length ≤ n →
      renderParts (fun g2 => g2) (importPartsF n cs) = cs := by
  intro n
  induction n with
  | zero =>
    intro cs hle
    cases cs with
    | nil => simp [importPartsF, renderParts]
    | cons c rest => simp at hle
  | succ n ih =>
    intro cs hle
    cases cs with
    | nil => simp [importPartsF, renderParts]
    | cons c rest =>
      simp only [importPartsF]
      cases h : matchImportAt (c :: rest) with
      | some pr =>
        obtain ⟨g1, g2, g3, after⟩ := pr
        obtain ⟨hdec, _⟩ := matchImportAt_decomp (c :: rest) g1 g2 g3 after h
        have hlt : after.length < (c :: rest).length :=
          matchImportAt_lt (c :: rest) g1 g2 g3 after h
        have hle2 : after.length ≤ n := by
          simp only [List.length_cons] at hlt hle
          omega
        simp only [renderParts, ih after hle2]
        simp [hdec]
      | none =>
        have hle2 : rest.length ≤ n := by
          simp only [List.length_cons] at hle
          omega
        simp [renderParts, ih rest hle2]

/-- With the identity reference-rewriter, the whole substitution is the
identity: everything outside the rewritten group-2 spans is preserved
byte for byte. -/
theorem subImport_id (cs : List Char) : subImport (fun g2 => g2) cs = cs :=
  renderParts_id_importPartsF cs.length cs (Nat.le_refl _)

/-- A node of the parsed theme document as seen by
`apply_absolute_prefix`: an element with a tag, attributes and optional
text content (lxml yields `None` text for an empty element, modelled as
`none`), or a comment carrying its text. -/
inductive ThemeNode where
  | element : String → List (String × String) → Option String → ThemeNode
  | comment : String → ThemeNode

/-- lxml `node.get(key)`: the attribute value, or none if absent. -/
def getAttr : List (String × String) → String → Option String
  | [], _ => none
  | kv :: rest, k => if kv.1 = k then some kv.2 else getAttr rest k

/-- lxml `node.set(key, value)`: replace the attribute value, or append
the attribute if absent. -/
def setAttr : List (String × String) → String → String → List (String × String)
  | [], k, v => [(k, v)]
  | kv :: rest, k, v => if kv.1 = k then (k, v) :: rest else kv :: setAttr rest k v

theorem getAttr_setAttr_ne (a : List (String × String)) (k v k2 : String)
    (hne : k2 ≠ k) : getAttr (setAttr a k v) k2 = getAttr a k2 := by
  induction a with
  | nil => simp [setAttr, getAttr, hne.symm]
  | cons kv rest ih =>
    by_cases hk : kv.1 = k
    · simp [setAttr, getAttr, hk, hne.symm]
    · simp only [setAttr, if_neg hk]
      by_cases h2 : kv.1 = k2
      · simp [getAttr, h2]
      · simp [getAttr, h2, ih]

/-- Python truthiness of an optional attribute value: `None` and the
empty string are falsy. -/
def truthy : Option String → Bool
  | none => false
  | some s => s ≠ ""

/-- The body of the per-node loop of `apply_absolute_prefix` (the
prefix argument arrives with its trailing slash already stripped).
`img`/`script`/`input` elements have a truthy `src` rewritten through
`to_absolute`; `link` elements likewise for `href`; `style` elements
and comments whose text starts with `[if IE` have the `@import`
references of their text rewritten.  A `style` element without text is
`None` in lxml and `re.sub` then raises a `TypeError`, modelled as an
error result.  Nodes of any other kind are untouched. -/
def transformNode (pfx : String) : ThemeNode → Except String ThemeNode
  | ThemeNode.element tag attrs txt =>
    if tag = "img" ∨ tag = "script" ∨ tag = "input" then
      match getAttr attrs ("src") with
      | some s =>
        if s = "" then Except.ok (ThemeNode.element tag attrs txt)
        else Except.ok (ThemeNode.element tag (setAttr attrs ("src") (to_absolute s pfx)) txt)
      | none => Except.ok (ThemeNode.element tag attrs txt)
    else if tag = "link" then
      match getAttr attrs ("href") with
      | some s =>
        if s = "" then Except.ok (ThemeNode.element tag attrs txt)
        else Except.ok (ThemeNode.element tag (setAttr attrs ("href") (to_absolute s pfx)) txt)
      | none => Except.ok (ThemeNode.element tag attrs txt)
    else if tag = "style" then
      match txt with
      | some t => Except.ok (ThemeNode.element tag attrs (some (subImportStr pfx t)))
      | none => Except.error ("TypeError: expected string or bytes-like object")
    else Except.ok (ThemeNode.element tag attrs txt)
  | ThemeNode.comment t =>
    if startsWithS t ("[if IE") then Except.ok (ThemeNode.comment (subImportStr pfx t))
    else Except.ok (ThemeNode.comment t)

/-- Python `absolute_prefix[:-1]` when it ends with a slash. -/
def stripTrailingSlash (s : String) : String :=
  if s.toList.getLast? = some '/' then String.mk s.toList.dropLast else s

/-- Embedding of `apply_absolute_prefix(theme_doc, absolute_prefix)`:
strip one trailing slash from the prefix, then rewrite every node
selected by the xpath (style, script, img, link, input elements and
comments).  The theme document is modelled as the list of those
nodes. -/
def applyAbsolutePrefix (doc : List ThemeNode) (ap : String) : Except String (List ThemeNode) :=
  doc.mapM (transformNode (stripTrailingSlash ap))

/-- Namespace tag of a rules-document node: deprecated (`old`, the
Deliverance 0.2 namespace in `utils.namespaces`) or current (`xdv`).
Per the spec a rules document is entirely in one of the two. -/
inductive NSpace where
  | old : NSpace
  | xdv : NSpace
deriving DecidableEq

/-- A rules document: a tree of elements, each carrying its namespace,
its local name and its children. -/
inductive RTree where
  | node : NSpace → String → List RTree → RTree

/-- The namespace-erased shape of a rules document, used to state
structural equivalence. -/
inductive STree where
  | node : String → List STree → STree

/-- Whether a namespace tag is the deprecated one. -/
def isOldNS : NSpace → Bool
  | NSpace.old => true
  | NSpace.xdv => false

mutual
/-- The xpath test of `update_namespace`:
`rules.xpath("//*[namespace-uri()='...old...']")` is non-empty, i.e.
some node is in the deprecated namespace. -/
def hasOldNS : RTree → Bool
  | RTree.node ns _ kids => isOldNS ns || hasOldNSL kids
/-- `hasOldNS` over a list of children. -/
def hasOldNSL : List RTree → Bool
  | [] => false
  | t :: ts => hasOldNS t || hasOldNSL ts
end

mutual
/-- Modelled from the spec: the `update-namespace.xsl` transform
(`update_transform`, not under `src/`) produces "a new rules document
in the current namespace with structurally equivalent rules": every
node is re-tagged into the current namespace, structure and names
kept. -/
def updateTransform : RTree → RTree
  | RTree.node _ name kids => RTree.node NSpace.xdv name (updateTransformL kids)
/-- `updateTransform` over a list of children. -/
def updateTransformL : List RTree → List RTree
  | [] => []
  | t :: ts => updateTransform t :: updateTransformL ts
end

mutual
/-- Erase namespaces, keeping names and structure. -/
def stripNS : RTree → STree
  | RTree.node _ name kids => STree.node name (stripNSL kids)
/-- `stripNS` over a list of children. -/
def stripNSL : List RTree → List STree
  | [] => []
  | t :: ts => stripNS t :: stripNSL ts
end

/-- Embedding of `update_namespace(rules)` from `compiler.py`: if any
node is in the deprecated namespace, log one deprecation warning and
return the transformed document, else return the document unchanged.
The second component counts the warnings logged by the call. -/
def update_namespace (rules : RTree) : RTree × Nat :=
  if hasOldNS rules then (updateTransform rules, 1) else (rules, 0)

mutual
theorem hasOldNS_updateTransform : ∀ t : RTree, hasOldNS (updateTransform t) = false
  | RTree.node ns name kids => by
    simp [updateTransform, hasOldNS, isOldNS, hasOldNSL_updateTransformL kids]
theorem hasOldNSL_updateTransformL : ∀ ts : List RTree, hasOldNSL (updateTransformL ts) = false
  | [] => by simp [updateTransformL, hasOldNSL]
  | t :: ts => by
    simp [updateTransformL, hasOldNSL, hasOldNS_updateTransform t,
      hasOldNSL_updateTransformL ts]
end

mutual
theorem stripNS_updateTransform : ∀ t : RTree, stripNS (updateTransform t) = stripNS t
  | RTree.node ns name kids => by
    simp [updateTransform, stripNS, stripNSL_updateTransformL kids]
theorem stripNSL_updateTransformL : ∀ ts : List RTree, stripNSL (updateTransformL ts) = stripNSL ts
  | [] => by simp [updateTransformL, stripNSL]
  | t :: ts => by
    simp [updateTransformL, stripNSL, stripNS_updateTransform t,
      stripNSL_updateTransformL ts]
end

/-- Embedding of `CompileResolver`: the serialized rules document and
the optional serialized extension program registered for one
compilation. -/
structure CompileResolver where
  rules : String
  extra : Option String

/-- Embedding of `CompileResolver.resolve(url, pubid, context)`: the
reserved rules slot resolves to the registered rules bytes; the
reserved extra slot resolves to the registered extra bytes when
present; any other request returns `None` (falling through to the
ambient, policy-gated resolution). -/
def CompileResolver.resolve (res : CompileResolver) (url : String) : Option String :=
  if url = "__xdv__rules" then some res.rules
  else if url = "__xdv__extra" ∧ res.extra ≠ none then res.extra
  else none

/-- Embedding of `etree.XSLTAccessControl`: the five capability
booleans. -/
structure XSLTAccessControl where
  read_file : Bool
  write_file : Bool
  create_dir : Bool
  read_network : Bool
  write_network : Bool
deriving DecidableEq

/-- The access control constructed by `compile_theme` when none is
supplied: `XSLTAccessControl(read_file=True, write_file=False,
create_dir=False, read_network=False, write_network=False)`. -/
def defaultCompileAC : XSLTAccessControl :=
  XSLTAccessControl.mk true false false false false

/-- The access control actually used by `compile_theme`: the supplied
one, or `defaultCompileAC` when `access_control is None`. -/
def effectiveAC : Option XSLTAccessControl → XSLTAccessControl
  | none => defaultCompileAC
  | some a => a

/-- The external collaborators of `compile_theme`, modelled as explicit
(pure) functions: XInclude processing, `convert_css_selectors` (from
`cssrules.py`, not under `src/`), `etree.tostring` serialization, and
the fixed `compiler.xsl` transform-generating program (opaque per the
spec), taking the theme, the named parameters, the access control and
the registered resolver to the serialized generated transform. -/
structure CompileEnv where
  xi : RTree → RTree
  cssConv : RTree → RTree
  serialize : RTree → String
  engine : List ThemeNode → List (String × String) → XSLTAccessControl → CompileResolver → String

/-- The keyword options of `compile_theme` (lxml parser instances are
external machinery and are not modelled; `extra` stands for the
serialized extension program; `absPfx` is `absolute_prefix`). -/
structure CompileOptions where
  extra : Option String
  css : Bool
  xinclude : Bool
  absPfx : Option String
  update : Bool
  trace : Bool
  includemode : Option String
  access_control : Option XSLTAccessControl

/-- Embedding of the body of `compile_theme` given the effective access
control: xinclude, namespace update and css conversion on the rules
document (in source order, each under its flag), absolute-prefix
rewriting of the theme when the prefix is truthy, construction of the
named parameters and the resolver, then execution of the
transform-generating program. -/
def compile_theme_ac (env : CompileEnv) (o : CompileOptions) (rules : RTree)
    (theme : List ThemeNode) (ac : XSLTAccessControl) : Except String String :=
  let rules1 := if o.xinclude then env.xi rules else rules
  let rules2 := if o.update then (update_namespace rules1).1 else rules1
  let rules3 := if o.css then env.cssConv rules2 else rules2
  match (if truthy o.absPfx then applyAbsolutePrefix theme (o.absPfx.getD "")
         else Except.ok theme) with
  | Except.error e => Except.error e
  | Except.ok theme2 =>
    let params0 := [("rulesuri", "__xdv__rules")]
    let params1 := if truthy o.extra then params0 ++ [("extraurl", "__xdv__extra")] else params0
    let params2 := if o.trace then params1 ++ [("trace", "1")] else params1
    let params3 := if truthy o.includemode then params2 ++ [("includemode", o.includemode.getD "")]
                   else params2
    let resolver := CompileResolver.mk (env.serialize rules3)
      (if truthy o.extra then o.extra else none)
    Except.ok (env.engine theme2 params3 ac resolver)

/-- Embedding of `compile_theme`: the effective access control is the
supplied one or the local-read-only default. -/
def compile_theme (env : CompileEnv) (o : CompileOptions) (rules : RTree)
    (theme : List ThemeNode) : Except String String :=
  compile_theme_ac env o rules theme (effectiveAC o.access_control)

/-- Embedding of `RunResolver`: the base directory of the content
document. -/
structure RunResolver where
  directory : String

/-- Python `s.endswith('/')`. -/
def endsWithSlash (s : String) : Bool :=
  match s.toList.getLast? with
  | some c => c == '/'
  | none => false

/-- `posixpath.join(a, b)` (`os.path.join` on a POSIX host). -/
def os_path_join (a b : String) : String :=
  if startsWithS b ("/") then b
  else if a = "" ∨ endsWithSlash a = true then a ++ b
  else a ++ "/" ++ b

/-- Embedding of `RunResolver.resolve(url, id, context)` from
`run.py`: full network locators and rooted paths are resolved
explicitly as given; any other url is joined to the base directory.
The result is the filename handed to `resolve_filename`. -/
def RunResolver.resolve (res : RunResolver) (url : String) : String :=
  if hasSubS url ("://") || startsWithS url ("/") then url
  else os_path_join res.directory url

/-- The keyword parameters accepted by `compile_theme` in
`compiler.py` (its exact Python signature). -/
def compileThemeParamNames : List String :=
  ["rules", "theme", "extra", "css", "xinclude", "absolute_prefix", "update",
   "trace", "includemode", "parser", "compiler_parser", "rules_parser", "access_control"]

/-- The keyword arguments passed to `compile_theme` by `main` in
`run.py` on the rules-document path. -/
def runMainKwargNames : List String :=
  ["rules", "theme", "extra", "parser", "read_network", "absolute_prefix", "includemode"]

/-- Python keyword-call check: a call with a keyword argument that the
callee does not accept raises `TypeError` before the body runs. -/
def pythonKwCall (accepted given : List String) : Except String Unit :=
  match given.find? (fun k => !(accepted.contains k)) with
  | some k => Except.error ("TypeError: compile_theme got an unexpected keyword argument " ++ k)
  | none => Except.ok ()

/-- The outcome of the `compile_theme(...)` invocation in `run.py`
`main` (rules-document path). -/
def runMainCompileCall : Except String Unit :=
  pythonKwCall compileThemeParamNames runMainKwargNames

/-- C3: a rules document with no node in the deprecated namespace is
returned unchanged with no warning; a rules document with at least one
such node yields exactly one warning and the namespace-update
transform's output, which is in the current namespace and structurally
equivalent to the input. -/
theorem update_namespace_correct (t : RTree) :
    (hasOldNS t = false → update_namespace t = (t, 0)) ∧
    (hasOldNS t = true →
      (update_namespace t).2 = 1 ∧
      (update_namespace t).1 = updateTransform t ∧
      hasOldNS (update_namespace t).1 = false ∧
      stripNS (update_namespace t).1 = stripNS t) := by
  constructor
  · intro h
    simp [update_namespace, h]
  · intro h
    simp [update_namespace, h, hasOldNS_updateTransform, stripNS_updateTransform]

theorem update_namespace_correct_witness :
    hasOldNS (RTree.node NSpace.old ("rules") []) = true ∧
    ((update_namespace (RTree.node NSpace.old ("rules") [])).2 = 1 ∧
     (update_namespace (RTree.node NSpace.old ("rules") [])).1 =
       updateTransform (RTree.node NSpace.old ("rules") []) ∧
     hasOldNS (update_namespace (RTree.node NSpace.old ("rules") [])).1 = false ∧
     stripNS (update_namespace (RTree.node NSpace.old ("rules") [])).1 =
       stripNS (RTree.node NSpace.old ("rules") [])) :=
  ⟨by simp [hasOldNS, hasOldNSL, isOldNS],
   (update_namespace_correct (RTree.node NSpace.old ("rules") [])).2
     (by simp [hasOldNS, hasOldNSL, isOldNS])⟩

/-- C4: the resolver returns the registered rules bytes for the
reserved rules slot, the registered extra bytes for the reserved extra
slot when supplied, and declines (returns none, falling through to the
ambient policy-gated resolution) for the extra slot without extra
bytes and for every other identifier. -/
theorem compileResolver_resolve_slots (rules : String) (extra : Option String) :
    CompileResolver.resolve (CompileResolver.mk rules extra) ("__xdv__rules") = some rules ∧
    (∀ e, extra = some e →
      CompileResolver.resolve (CompileResolver.mk rules extra) ("__xdv__extra") = some e) ∧
    (extra = none →
      CompileResolver.resolve (CompileResolver.mk rules extra) ("__xdv__extra") = none) ∧
    (∀ url, url ≠ "__xdv__rules" → url ≠ "__xdv__extra" →
      CompileResolver.resolve (CompileResolver.mk rules extra) url = none) := by
  refine ⟨?_, ?_, ?_, ?_⟩
  · simp [CompileResolver.resolve]
  · intro e he
    subst he
    simp [CompileResolver.resolve]
  · intro he
    subst he
    simp [CompileResolver.resolve]
  · intro url h1 h2
    simp [CompileResolver.resolve, h1, h2]

theorem compileResolver_resolve_slots_witness :
    CompileResolver.resolve (CompileResolver.mk ("RULES") (some ("EXTRA"))) ("__xdv__rules") =
      some ("RULES") ∧
    CompileResolver.resolve (CompileResolver.mk ("RULES") (some ("EXTRA"))) ("__xdv__extra") =
      some ("EXTRA") ∧
    CompileResolver.resolve (CompileResolver.mk ("RULES") none) ("__xdv__extra") = none ∧
    CompileResolver.resolve (CompileResolver.mk ("RULES") (some ("EXTRA"))) ("other.xsl") = none :=
  ⟨(compileResolver_resolve_slots ("RULES") (some ("EXTRA"))).1,
   (compileResolver_resolve_slots ("RULES") (some ("EXTRA"))).2.1 ("EXTRA") rfl,
   (compileResolver_resolve_slots ("RULES") none).2.2.1 rfl,
   (compileResolver_resolve_slots ("RULES") (some ("EXTRA"))).2.2.2 ("other.xsl")
     (by decide) (by decide)⟩

/-- C5: the rules-document invocation of the runner passes the keyword
argument `read_network` to `compile_theme`, which accepts no such
parameter, so the call raises `TypeError` before the compiler runs:
the runner cannot successfully invoke the compiler on this path. -/
theorem runMain_compile_call_type_error :
    runMainCompileCall =
      Except.error ("TypeError: compile_theme got an unexpected keyword argument read_network") ∧
    "read_network" ∈ runMainKwargNames ∧ "read_network" ∉ compileThemeParamNames := by
  refine ⟨rfl, by decide, by decide⟩

/-- C6: when no access policy is supplied, `compile_theme` runs the
transform-generating program under the local-read-only preset:
read-local-storage granted, all writes, directory creation and network
access denied. -/
theorem compile_theme_default_access (env : CompileEnv) (o : CompileOptions)
    (rules : RTree) (theme : List ThemeNode) (h : o.access_control = none) :
    compile_theme env o rules theme = compile_theme_ac env o rules theme defaultCompileAC ∧
    defaultCompileAC.read_file = true ∧
    defaultCompileAC.write_file = false ∧
    defaultCompileAC.create_dir = false ∧
    defaultCompileAC.read_network = false ∧
    defaultCompileAC.write_network = false := by
  refine ⟨?_, rfl, rfl, rfl, rfl, rfl⟩
  simp [compile_theme, h, effectiveAC]

theorem compile_theme_default_access_witness :
    compile_theme
        (CompileEnv.mk (fun t => t) (fun t => t) (fun _ => "") (fun _ _ _ _ => ""))
        (CompileOptions.mk none true true none true false none none)
        (RTree.node NSpace.xdv ("rules") []) [] =
      compile_theme_ac
        (CompileEnv.mk (fun t => t) (fun t => t) (fun _ => "") (fun _ _ _ _ => ""))
        (CompileOptions.mk none true true none true false none none)
        (RTree.node NSpace.xdv ("rules") []) [] defaultCompileAC ∧
    defaultCompileAC.read_file = true ∧
    defaultCompileAC.write_file = false ∧
    defaultCompileAC.create_dir = false ∧
    defaultCompileAC.read_network = false ∧
    defaultCompileAC.write_network = false :=
  compile_theme_default_access
    (CompileEnv.mk (fun t => t) (fun t => t) (fun _ => "") (fun _ _ _ _ => ""))
    (CompileOptions.mk none true true none true false none none)
    (RTree.node NSpace.xdv ("rules") []) [] rfl

/-- C7: a url containing `://` or beginning with `/` is resolved
as-is; every other url is resolved as the join of the base directory
and the url. -/
theorem runResolver_resolve_spec (d url : String) :
    ((hasSubS url ("://") = true ∨ startsWithS url ("/") = true) →
      RunResolver.resolve (RunResolver.mk d) url = url) ∧
    (hasSubS url ("://") = false → startsWithS url ("/") = false →
      RunResolver.resolve (RunResolver.mk d) url = os_path_join d url) := by
  constructor
  · intro h
    have hc : (hasSubS url ("://") || startsWithS url ("/")) = true := by
      cases h with
      | inl hx => rw [hx]; rfl
      | inr hx => rw [hx]; simp
    simp [RunResolver.resolve, hc]
  · intro h1 h2
    simp [RunResolver.resolve, h1, h2]

theorem runResolver_resolve_spec_witness :
    RunResolver.resolve (RunResolver.mk ("/base")) ("/x.css") = "/x.css" ∧
    RunResolver.resolve (RunResolver.mk ("/base")) ("css/a.css") =
      os_path_join ("/base") ("css/a.css") :=
  ⟨(runResolver_resolve_spec ("/base") ("/x.css")).1 (Or.inr (by decide)),
   (runResolver_resolve_spec ("/base") ("css/a.css")).2 (by decide) (by decide)⟩

/-- C8: for style elements and conditional comments only the group-2
references of `@import` constructs are rewritten (with the identity
rewriter the text is unchanged byte for byte), and unrecognized nodes
and non-resource attributes are untouched. -/
theorem applyAbsolutePrefix_frame (pfx : String) :
    (∀ t, subImportStr pfx t =
        String.mk (renderParts (fun g2 => (to_absolute (String.mk g2) pfx).toList)
          (importParts t.toList))) ∧
    (∀ cs, renderParts (fun g2 => g2) (importParts cs) = cs) ∧
    (∀ attrs t, transformNode pfx (ThemeNode.element ("style") attrs (some t)) =
        Except.ok (ThemeNode.element ("style") attrs (some (subImportStr pfx t)))) ∧
    (∀ t, startsWithS t ("[if IE") = true →
      transformNode pfx (ThemeNode.comment t) = Except.ok (ThemeNode.comment (subImportStr pfx t))) ∧
    (∀ t, startsWithS t ("[if IE") = false →
      transformNode pfx (ThemeNode.comment t) = Except.ok (ThemeNode.comment t)) ∧
    (∀ tag attrs txt, tag ∉ (["img", "script", "input", "link", "style"] : List String) →
      transformNode pfx (ThemeNode.element tag attrs txt) =
        Except.ok (ThemeNode.element tag attrs txt)) ∧
    (∀ a v k2, k2 ≠ "src" → getAttr (setAttr a ("src") v) k2 = getAttr a k2) ∧
    (∀ a v k2, k2 ≠ "href" → getAttr (setAttr a ("href") v) k2 = getAttr a k2) := by
  refine ⟨fun t => rfl, fun cs => subImport_id cs, ?_, ?_, ?_, ?_, ?_, ?_⟩
  · intro attrs t
    simp [transformNode]
  · intro t h
    simp [transformNode, h]
  · intro t h
    simp [transformNode, h]
  · intro tag attrs txt h
    simp only [List.mem_cons, List.mem_singleton, not_or] at h
    obtain ⟨h1, h2, h3, h4, h5⟩ := h
    simp [transformNode, h1, h2, h3, h4, h5]
  · intro a v k2 h
    exact getAttr_setAttr_ne a ("src") v k2 h
  · intro a v k2 h
    exact getAttr_setAttr_ne a ("href") v k2 h

theorem applyAbsolutePrefix_frame_witness :
    renderParts (fun g2 => g2) (importParts ("no imports here").toList) =
      ("no imports here").toList ∧
    transformNode ("/static") (ThemeNode.element ("div") [] none) =
      Except.ok (ThemeNode.element ("div") [] none) ∧
    transformNode ("/static") (ThemeNode.comment (" plain comment ")) =
      Except.ok (ThemeNode.comment (" plain comment ")) :=
  ⟨(applyAbsolutePrefix_frame ("/static")).2.1 (("no imports here").toList),
   (applyAbsolutePrefix_frame ("/static")).2.2.2.2.2.1 ("div") [] none (by decide),
   (applyAbsolutePrefix_frame ("/static")).2.2.2.2.1 (" plain comment ") (by decide)⟩

/-- C9: the embedded `compile_theme` is a pure function of its
environment, options, rules document and theme document: equal inputs
give equal generated transforms (determinism, no hidden state). -/
theorem compile_theme_deterministic (env : CompileEnv)
    (o1 o2 : CompileOptions) (r1 r2 : RTree) (t1 t2 : List ThemeNode)
    (ho : o1 = o2) (hr : r1 = r2) (ht : t1 = t2) :
    compile_theme env o1 r1 t1 = compile_theme env o2 r2 t2 := by
  subst ho
  subst hr
  subst ht
  rfl

theorem compile_theme_deterministic_witness :
    compile_theme
        (CompileEnv.mk (fun t => t) (fun t => t) (fun _ => "") (fun _ _ _ _ => "OUT"))
        (CompileOptions.mk none true true none true false none none)
        (RTree.node NSpace.xdv ("rules") []) [] =
      compile_theme
        (CompileEnv.mk (fun t => t) (fun t => t) (fun _ => "") (fun _ _ _ _ => "OUT"))
        (CompileOptions.mk none true true none true false none none)
        (RTree.node NSpace.xdv ("rules") []) [] :=
  compile_theme_deterministic
    (CompileEnv.mk (fun t => t) (fun t => t) (fun _ => "") (fun _ _ _ _ => "OUT"))
    (CompileOptions.mk none true true none true false none none)
    (CompileOptions.mk none true true none true false none none)
    (RTree.node NSpace.xdv ("rules") []) (RTree.node NSpace.xdv ("rules") [])
    [] [] rfl rfl rfl

/-- C10: `apply_absolute_prefix` does not terminate normally on every
theme document: a style element with no text content (lxml text
`None`) makes the `re.sub` call raise `TypeError`.  The embedding
evaluates to that error on such a document. -/
theorem applyAbsolutePrefix_empty_style_error :
    applyAbsolutePrefix [ThemeNode.element ("style") [] none] ("/static") =
      Except.error ("TypeError: expected string or bytes-like object") := rfl
